import Mathlib

/-!
# Verification of MicroCore `wiring.c` (timing functions for the ATtiny13)

Shallow embedding of the timing-related code in
`avr/cores/microcore/wiring.c`: the `micros()` reader, the
`ISR(TIM0_OVF_vect)` overflow handler, the `init()` start-up routine and
the `delay()` busy-wait loop, together with theorems about their
behaviour.

`micros()` is modelled operationally: its body is a list of primitive
statements executed by a small-step interpreter in which a timer-overflow
event may be injected between any two statements, so ordering and race
properties are genuine theorems about interleavings rather than facts
about a collapsed pure function.  All machine integers are `Nat` with
explicit `% 2^w` where C unsigned arithmetic wraps.
-/

namespace MicroCore

/-- `2^32`, the modulus of C `uint32_t` arithmetic. -/
def U32 : Nat := 4294967296

/-- The AVR global-interrupt-enable flag: bit 7 (the I bit) of `SREG`. -/
def iBit (sreg : Nat) : Bool := sreg.testBit 7

/-- `_BV(b)` from `<avr/io.h>`: `1 << b`. -/
def _BV (b : Nat) : Nat := 1 <<< b

/-- Bit number of clock-select bit 0 in `TCCR0B` (ATtiny13). -/
def CS00 : Nat := 0

/-- Bit number of clock-select bit 1 in `TCCR0B` (ATtiny13). -/
def CS01 : Nat := 1

/-- Bit number of the timer0 overflow-interrupt-enable bit in `TIMSK0`
(ATtiny13). -/
def TOIE0 : Nat := 1

/-- The hardware registers and module-level variables touched by
`wiring.c`.  `SREG`, `TCNT0`, `TCCR0B` and `TIMSK0` are 8-bit hardware
registers; `timer0_overflow` is the `volatile uint32_t` tally declared at
file scope (statically initialised to `0`); `extra` stands for every
other program variable, so frame theorems can state that it is
untouched. -/
structure HwState where
  SREG : Nat
  TCNT0 : Nat
  TCCR0B : Nat
  TIMSK0 : Nat
  timer0_overflow : Nat
  extra : Nat
  deriving DecidableEq

/-- Hardware well-formedness: 8-bit registers hold bytes and the tally is
a 32-bit value. -/
def HwState.WF (s : HwState) : Prop :=
  s.SREG < 256 ∧ s.TCNT0 < 256 ∧ s.timer0_overflow < U32

/-- `ISR(TIM0_OVF_vect) { timer0_overflow++; }` — the overflow handler
increments the 32-bit tally by one and touches nothing else. -/
def ISR_TIM0_OVF (s : HwState) : HwState :=
  { s with timer0_overflow := (s.timer0_overflow + 1) % U32 }

/-- A machine is the hardware state plus the timer0 overflow-interrupt
flag (`TOV0`): `pending = true` means an overflow has occurred whose
interrupt has not been serviced yet. -/
structure Machine where
  hw : HwState
  pending : Bool
  deriving DecidableEq

/-- Interrupt servicing: if an overflow is pending, global interrupts are
enabled and the overflow interrupt is unmasked in `TIMSK0`, the pending
interrupt runs `ISR_TIM0_OVF` and the flag clears; otherwise nothing
happens.  (The AVR hardware clears the I bit on ISR entry and `reti`
restores it, so the net effect on `SREG` is none.) -/
def serviceIrq (m : Machine) : Machine :=
  if m.pending && iBit m.hw.SREG && m.hw.TIMSK0.testBit TOIE0 then
    { hw := ISR_TIM0_OVF m.hw, pending := false }
  else m

/-- A hardware overflow event: `TCNT0` wraps from 255 to 0 and the
overflow interrupt flag is raised. -/
def ovfEvent (m : Machine) : Machine :=
  { m with hw := { m.hw with TCNT0 := 0 }, pending := true }

/-- The primitive statements of the body of `micros()`, in source
order:
`uint8_t oldSREG = SREG; t = TCNT0; cli(); x = timer0_overflow;
SREG = oldSREG;`. -/
inductive MStmt
  | saveSREG
  | readTCNT0
  | cli
  | readTally
  | restoreSREG
  deriving DecidableEq

/-- The local variables of `micros()`: `oldSREG`, `t` and `x` (all
assigned before any use; modelled as starting at 0). -/
structure Frame where
  oldSREG : Nat
  t : Nat
  x : Nat
  deriving DecidableEq

/-- Effect of one `micros()` statement on the machine and the local
frame.  `cli()` clears the I bit (`SREG &= 0x7F`); the final statement
writes the saved byte back to `SREG`. -/
def execStmt : MStmt → Machine → Frame → Machine × Frame
  | .saveSREG, m, f => (m, { f with oldSREG := m.hw.SREG })
  | .readTCNT0, m, f => (m, { f with t := m.hw.TCNT0 })
  | .cli, m, f => ({ m with hw := { m.hw with SREG := m.hw.SREG &&& 127 } }, f)
  | .readTally, m, f => (m, { f with x := m.hw.timer0_overflow })
  | .restoreSREG, m, f => ({ m with hw := { m.hw with SREG := f.oldSREG } }, f)

/-- Run a statement list from index `i`.  `sched j = true` injects a
hardware overflow event just before statement `j`; a pending interrupt is
serviced at every statement boundary where the I bit allows it (this is
how AVR delivers an interrupt that was raised while interrupts were
disabled).  Returns the final machine, the final frame and a trace: each
executed statement paired with the I bit at the moment it executed. -/
def runStmts : List MStmt → Nat → (Nat → Bool) → Machine → Frame →
    Machine × Frame × List (MStmt × Bool)
  | [], _, _, m, f => (m, f, [])
  | st :: rest, i, sched, m, f =>
    let m1 := serviceIrq (if sched i then ovfEvent m else m)
    let r := execStmt st m1 f
    let rec2 := runStmts rest (i + 1) sched (serviceIrq r.1) r.2
    (rec2.1, rec2.2.1, (st, iBit m1.hw.SREG) :: rec2.2.2)

/-- The body of `micros()` as a statement list, in source order. -/
def microsProg : List MStmt :=
  [.saveSREG, .readTCNT0, .cli, .readTally, .restoreSREG]

/-- The `#if F_CPU == ...` chain of `micros()`: the compile-time
conversion constant multiplying elapsed ticks into microseconds.
Unsupported frequencies fall off the end of the chain (no `return`),
modelled as `none`. -/
def microsMultiplier (fcpu : Nat) : Option Nat :=
  if fcpu = 20000000 then some 3
  else if fcpu = 16000000 then some 4
  else if fcpu = 12000000 then some 5
  else if fcpu = 9600000 then some 7
  else if fcpu = 8000000 then some 8
  else if fcpu = 4800000 then some 13
  else if fcpu = 1200000 then some 7
  else if fcpu = 1000000 then some 8
  else if fcpu = 600000 then some 13
  else if fcpu = 128000 then some 62
  else none

/-- Initial local frame of `micros()`. -/
def initFrame : Frame := ⟨0, 0, 0⟩

/-- A full run of `micros()` at compile-time frequency `fcpu` under
interrupt schedule `sched`: executes `microsProg` and returns
`((x << 8) + t) * multiplier` in `uint32_t` arithmetic, together with the
final machine and the execution trace.  `none` when the frequency is not
in the `#if` chain. -/
def microsRun (fcpu : Nat) (sched : Nat → Bool) (m : Machine) :
    Option (Nat × Machine × List (MStmt × Bool)) :=
  match microsMultiplier fcpu with
  | none => none
  | some k =>
    let r := runStmts microsProg 0 sched m initFrame
    some ((((r.2.1.x <<< 8) % U32 + r.2.1.t) % U32 * k) % U32, r.1, r.2.2)

/-- The primitive statements of `init()` (with `ENABLE_MICROS`), in
source order: write `TCCR0B`, write `TIMSK0`, zero `TCNT0`, `sei()`. -/
inductive IStmt
  | setTCCR0B
  | setTIMSK0
  | zeroTCNT0
  | sei
  deriving DecidableEq

/-- The body of `init()`: the three timer0 set-up writes exist only when
`ENABLE_MICROS` is defined; `sei()` is unconditional and last. -/
def initProg (enableMicros : Bool) : List IStmt :=
  (if enableMicros then [.setTCCR0B, .setTIMSK0, .zeroTCNT0] else []) ++ [.sei]

/-- Effect of one `init()` statement.  The prescaler bits are
`_BV(CS00) | _BV(CS01)` (clk/64) when `F_CPU >= 4800000L` and `_BV(CS01)`
(clk/8) otherwise; `sei()` sets the I bit. -/
def execIStmt (fcpu : Nat) : IStmt → HwState → HwState
  | .setTCCR0B, s =>
    { s with TCCR0B := if 4800000 ≤ fcpu then _BV CS00 ||| _BV CS01 else _BV CS01 }
  | .setTIMSK0, s => { s with TIMSK0 := _BV TOIE0 }
  | .zeroTCNT0, s => { s with TCNT0 := 0 }
  | .sei, s => { s with SREG := s.SREG ||| 128 }

/-- `init()`: runs its statements in source order over the hardware
state. -/
def init (fcpu : Nat) (enableMicros : Bool) (s : HwState) : HwState :=
  (initProg enableMicros).foldl (fun s st => execIStmt fcpu st s) s

/-- The ATtiny13 datasheet clock-select table for `TCCR0B` (a hardware
fact, not program code): which divisor each clock-select bit pattern
selects.  `none` covers no-clock and external-clock patterns. -/
def clockSelectDivisor (tccr0b : Nat) : Option Nat :=
  if tccr0b = 1 then some 1
  else if tccr0b = 2 then some 8
  else if tccr0b = 3 then some 64
  else if tccr0b = 4 then some 256
  else if tccr0b = 5 then some 1024
  else none

/-- Tail of `while(ms--) _delay_ms(1);`: `ms` is a `uint16_t` that tests
non-zero, post-decrements, and runs one `_delay_ms(1)` per iteration;
`waits` accumulates the number of `_delay_ms(1)` executions.  Structural
recursion on `ms`, so totality (termination of the loop) is proved by the
definition itself. -/
def delayLoop : Nat → Nat → Nat
  | 0, waits => waits
  | n + 1, waits => delayLoop n (waits + 1)

/-- `delay(uint16_t ms)`: number of `_delay_ms(1)` busy-wait executions
performed.  The argument is reduced mod `2^16` as a `uint16_t`. -/
def delay (ms : Nat) : Nat := delayLoop (ms % 65536) 0

/-- Modelled from the spec: a hardware tick of the fast timer's count
register (the timer peripheral increments `TCNT0`; this is the clock
source described in the spec's data model, not program code in
`wiring.c`). -/
def hwTick (s : HwState) : HwState :=
  { s with TCNT0 := (s.TCNT0 + 1) % 256 }

/-- The spec's enumerated conversion-constant table:
CPU frequency ↦ microseconds-per-tick multiplier. -/
def multiplierTable : List (Nat × Nat) :=
  [(20000000, 3), (16000000, 4), (12000000, 5), (9600000, 7), (8000000, 8),
   (4800000, 13), (1200000, 7), (1000000, 8), (600000, 13), (128000, 62)]

/-- The power-on hardware state: all registers and the statically
initialised tally at zero. -/
def hw0 : HwState := ⟨0, 0, 0, 0, 0, 0⟩

/-- The prescaler divisor selected by `init()` at a given frequency, read
back from the `TCCR0B` bits it wrote through the datasheet clock-select
table. -/
def prescalerOf (fcpu : Nat) : Nat :=
  (clockSelectDivisor (init fcpu true hw0).TCCR0B).getD 0

/-- A concrete mid-run state: power-on, one `init()` at 16 MHz, five
timer overflows (ISR executions) and seventeen hardware ticks.  Used to
exhibit the effect of a second `init()` call. -/
def preSecondInit : HwState :=
  hwTick^[17] (ISR_TIM0_OVF^[5] (init 16000000 true hw0))

/-- Clearing bit 7 with `& 0x7F` clears the I bit. -/
theorem iBit_and_127 (n : Nat) : iBit (n &&& 127) = false := by
  have h7 : Nat.testBit 127 7 = false := by decide
  simp [iBit, Nat.testBit_land, h7]

/-- Symbolic execution of `micros()` with no interrupt activity: the
locals pick up the entry values of `TCNT0` and `timer0_overflow`, the
machine is restored exactly, and the trace shows `TCNT0` read at the
entry I bit, the tally read with interrupts disabled, and `SREG`
restored. -/
theorem microsRun_noirq (fcpu k : Nat) (s : HwState)
    (hk : microsMultiplier fcpu = some k) :
    microsRun fcpu (fun _ => false) ⟨s, false⟩ =
      some ((((s.timer0_overflow <<< 8) % U32 + s.TCNT0) % U32 * k) % U32,
            ⟨s, false⟩,
            [(.saveSREG, iBit s.SREG), (.readTCNT0, iBit s.SREG),
             (.cli, iBit s.SREG), (.readTally, false), (.restoreSREG, false)]) := by
  unfold microsRun
  rw [hk]
  simp [microsProg, runStmts, execStmt, serviceIrq, initFrame, iBit_and_127]

/-- Symbolic execution of `micros()` when the timer overflows between the
`TCNT0` read and `cli()`: the interrupt is serviced at once (interrupts
are still enabled), so the tally read sees the incremented value while
`t` keeps the pre-overflow count. -/
theorem microsRun_race_before_cli (fcpu k : Nat) (s : HwState)
    (hk : microsMultiplier fcpu = some k)
    (hI : iBit s.SREG = true) (hT : s.TIMSK0.testBit TOIE0 = true) :
    microsRun fcpu (fun i => i == 2) ⟨s, false⟩ =
      some ((((((s.timer0_overflow + 1) % U32) <<< 8) % U32 + s.TCNT0) % U32 * k) % U32,
            ⟨{ s with TCNT0 := 0,
                      timer0_overflow := (s.timer0_overflow + 1) % U32 }, false⟩,
            [(.saveSREG, true), (.readTCNT0, true), (.cli, true),
             (.readTally, false), (.restoreSREG, false)]) := by
  unfold microsRun
  rw [hk]
  simp [microsProg, runStmts, execStmt, serviceIrq, ovfEvent, ISR_TIM0_OVF,
        initFrame, iBit_and_127, hI, hT]

/-- Symbolic execution of `micros()` when the timer overflows between
`cli()` and the tally read: the interrupt stays pending (interrupts are
disabled), the tally read sees the old value, and the pending interrupt
is serviced right after `SREG` is restored, so the tally is still
incremented exactly once by the end of the call. -/
theorem microsRun_race_after_cli (fcpu k : Nat) (s : HwState)
    (hk : microsMultiplier fcpu = some k)
    (hI : iBit s.SREG = true) (hT : s.TIMSK0.testBit TOIE0 = true) :
    microsRun fcpu (fun i => i == 3) ⟨s, false⟩ =
      some ((((s.timer0_overflow <<< 8) % U32 + s.TCNT0) % U32 * k) % U32,
            ⟨{ s with TCNT0 := 0,
                      timer0_overflow := (s.timer0_overflow + 1) % U32 }, false⟩,
            [(.saveSREG, true), (.readTCNT0, true), (.cli, true),
             (.readTally, false), (.restoreSREG, false)]) := by
  unfold microsRun
  rw [hk]
  simp [microsProg, runStmts, execStmt, serviceIrq, ovfEvent, ISR_TIM0_OVF,
        initFrame, iBit_and_127, hI, hT]

/-- Setting bit 7 with `| 0x80` (the effect of `sei()`) sets the I bit. -/
theorem iBit_or_128 (n : Nat) : iBit (n ||| 128) = true := by
  have h7 : Nat.testBit 128 7 = true := by decide
  simp [iBit, Nat.testBit_lor, h7]

/-- Every conversion constant in the `#if` chain is positive. -/
theorem microsMultiplier_pos (fcpu k : Nat)
    (h : microsMultiplier fcpu = some k) : 1 ≤ k := by
  unfold microsMultiplier at h
  split_ifs at h <;> simp_all <;> omega

/-- The `uint32_t` computation `((x << 8) + t) * k` of `micros()` equals
the ideal `(x * 256 + t) * k` whenever the latter fits in 32 bits. -/
theorem microsVal_eq (x t k : Nat) (hk : 1 ≤ k)
    (h : (x * 256 + t) * k < U32) :
    ((x <<< 8) % U32 + t) % U32 * k % U32 = (x * 256 + t) * k := by
  have hxt : x * 256 + t < U32 :=
    lt_of_le_of_lt (Nat.le_mul_of_pos_right _ hk) h
  have hx : x * 256 < U32 := lt_of_le_of_lt (Nat.le_add_right _ t) hxt
  have hs : x <<< 8 = x * 256 := by rw [Nat.shiftLeft_eq]
  rw [hs, Nat.mod_eq_of_lt hx, Nat.mod_eq_of_lt hxt, Nat.mod_eq_of_lt h]

/-- The busy-wait loop performs one `_delay_ms(1)` per remaining count. -/
theorem delayLoop_eq (n w : Nat) : delayLoop n w = n + w := by
  induction n generalizing w with
  | zero => simp [delayLoop]
  | succ m ih =>
    rw [delayLoop, ih]
    omega

/-- C1: `micros()` follows the specified algorithm in order — it reads
`TCNT0` into a local before interrupts are disabled (the trace records
the entry I bit at that read), reads `timer0_overflow` while interrupts
are disabled (I bit `false` at that read), restores the saved `SREG`
(the final machine equals the entry machine), and returns
`((tally << 8) + live_count) * conversion constant` in `uint32_t`
arithmetic. -/
theorem micros_read_order (fcpu k : Nat) (s : HwState)
    (hk : microsMultiplier fcpu = some k) :
    microsRun fcpu (fun _ => false) ⟨s, false⟩ =
      some ((((s.timer0_overflow <<< 8) % U32 + s.TCNT0) % U32 * k) % U32,
            ⟨s, false⟩,
            [(.saveSREG, iBit s.SREG), (.readTCNT0, iBit s.SREG),
             (.cli, iBit s.SREG), (.readTally, false), (.restoreSREG, false)]) :=
  microsRun_noirq fcpu k s hk

/-- Witness for C1 at 16 MHz on a concrete state. -/
theorem micros_read_order_witness :
    microsMultiplier 16000000 = some 4 ∧
    microsRun 16000000 (fun _ => false) ⟨⟨128, 42, 3, 2, 7, 9⟩, false⟩ =
      some ((((7 <<< 8) % U32 + 42) % U32 * 4) % U32,
            ⟨⟨128, 42, 3, 2, 7, 9⟩, false⟩,
            [(.saveSREG, iBit 128), (.readTCNT0, iBit 128), (.cli, iBit 128),
             (.readTally, false), (.restoreSREG, false)]) :=
  ⟨by decide, micros_read_order 16000000 4 ⟨128, 42, 3, 2, 7, 9⟩ (by decide)⟩

/-- C2: for every supported CPU frequency the conversion constant equals
the enumerated table value, it is a nearest-integer approximation of
(prescaler / frequency in MHz) — `2·|m·f − prescaler·10⁶| ≤ f` — with the
prescaler read back from the `TCCR0B` bits `init()` writes, and at 16 MHz
an elapsed tick count of 1000 (tally 3, count 232) converts to
1000·4 = 4000 microseconds. -/
theorem micros_conversion_table (fcpu m : Nat)
    (hmem : (fcpu, m) ∈ multiplierTable) :
    microsMultiplier fcpu = some m ∧
    2 * Nat.dist (m * fcpu) (prescalerOf fcpu * 1000000) ≤ fcpu ∧
    (microsRun 16000000 (fun _ => false)
        ⟨⟨128, 232, 3, 2, 3, 0⟩, false⟩).map Prod.fst = some 4000 := by
  fin_cases hmem <;> exact ⟨by decide, by decide, by decide⟩

/-- Witness for C2 at the 16 MHz table entry. -/
theorem micros_conversion_table_witness :
    (16000000, 4) ∈ multiplierTable ∧
    (microsMultiplier 16000000 = some 4 ∧
     2 * Nat.dist (4 * 16000000) (prescalerOf 16000000 * 1000000) ≤ 16000000 ∧
     (microsRun 16000000 (fun _ => false)
         ⟨⟨128, 232, 3, 2, 3, 0⟩, false⟩).map Prod.fst = some 4000) :=
  ⟨by decide, micros_conversion_table 16000000 4 (by decide)⟩

/-- C3: if the overflow interrupt fires between the `TCNT0` read
(statement 2) and the tally read (statement 4) of `micros()` — whether
just before `cli()` (`p = 2`, serviced immediately) or just after
(`p = 3`, held pending until `SREG` is restored) — the raced result is
never smaller than the result of a call strictly preceding the
interrupt, exceeds it by at most one overflow's worth of ticks
(`256 * k` microseconds), and the tally ends exactly one higher: the
overflow is never double-counted. -/
theorem micros_overflow_race (fcpu k p : Nat) (s : HwState)
    (hk : microsMultiplier fcpu = some k)
    (hI : iBit s.SREG = true) (hT : s.TIMSK0.testBit TOIE0 = true)
    (hp : p = 2 ∨ p = 3)
    (hnw : ((s.timer0_overflow + 1) * 256 + s.TCNT0) * k < U32) :
    ∃ v0 v1 m1 tr0 tr1,
      microsRun fcpu (fun _ => false) ⟨s, false⟩ = some (v0, ⟨s, false⟩, tr0) ∧
      microsRun fcpu (fun i => i == p) ⟨s, false⟩ = some (v1, m1, tr1) ∧
      v0 ≤ v1 ∧ v1 ≤ v0 + 256 * k ∧
      m1.hw.timer0_overflow = s.timer0_overflow + 1 := by
  have hk1 : 1 ≤ k := microsMultiplier_pos fcpu k hk
  have hle : s.timer0_overflow * 256 + s.TCNT0 ≤
      (s.timer0_overflow + 1) * 256 + s.TCNT0 := by omega
  have hA : (s.timer0_overflow * 256 + s.TCNT0) * k < U32 :=
    lt_of_le_of_lt (Nat.mul_le_mul_right k hle) hnw
  have hT1 : s.timer0_overflow + 1 < U32 := by
    have h1 : s.timer0_overflow + 1 ≤
        (s.timer0_overflow + 1) * 256 + s.TCNT0 := by omega
    have h2 : (s.timer0_overflow + 1) * 256 + s.TCNT0 ≤
        ((s.timer0_overflow + 1) * 256 + s.TCNT0) * k :=
      Nat.le_mul_of_pos_right _ hk1
    omega
  have h0 := microsRun_noirq fcpu k s hk
  rw [microsVal_eq s.timer0_overflow s.TCNT0 k hk1 hA] at h0
  have hBeq : ((s.timer0_overflow + 1) * 256 + s.TCNT0) * k =
      (s.timer0_overflow * 256 + s.TCNT0) * k + 256 * k := by ring
  rcases hp with hp | hp <;> subst hp
  · have h2 := microsRun_race_before_cli fcpu k s hk hI hT
    rw [Nat.mod_eq_of_lt hT1,
        microsVal_eq (s.timer0_overflow + 1) s.TCNT0 k hk1 hnw] at h2
    exact ⟨_, _, _, _, _, h0, h2, by omega, by omega, rfl⟩
  · have h3 := microsRun_race_after_cli fcpu k s hk hI hT
    rw [Nat.mod_eq_of_lt hT1,
        microsVal_eq s.timer0_overflow s.TCNT0 k hk1 hA] at h3
    exact ⟨_, _, _, _, _, h0, h3, le_refl _, by omega, rfl⟩

/-- Witness for C3 at 16 MHz, tally 7, count 255, interrupt just before
`cli()`. -/
theorem micros_overflow_race_witness :
    microsMultiplier 16000000 = some 4 ∧
    (∃ v0 v1 m1 tr0 tr1,
      microsRun 16000000 (fun _ => false) ⟨⟨128, 255, 3, 2, 7, 0⟩, false⟩ =
        some (v0, ⟨⟨128, 255, 3, 2, 7, 0⟩, false⟩, tr0) ∧
      microsRun 16000000 (fun i => i == 2) ⟨⟨128, 255, 3, 2, 7, 0⟩, false⟩ =
        some (v1, m1, tr1) ∧
      v0 ≤ v1 ∧ v1 ≤ v0 + 256 * 4 ∧
      m1.hw.timer0_overflow = 7 + 1) :=
  ⟨by decide, micros_overflow_race 16000000 4 2 ⟨128, 255, 3, 2, 7, 0⟩
    (by decide) (by decide) (by decide) (Or.inl rfl) (by decide)⟩

/-- C4: for two snapshots with non-decreasing total tick count
`tally * 256 + count`, and the larger one's conversion still inside the
32-bit range, `micros()` on the first returns at most `micros()` on the
second. -/
theorem micros_monotone (fcpu k : Nat) (s1 s2 : HwState)
    (hk : microsMultiplier fcpu = some k)
    (hle : s1.timer0_overflow * 256 + s1.TCNT0 ≤
           s2.timer0_overflow * 256 + s2.TCNT0)
    (hnw : (s2.timer0_overflow * 256 + s2.TCNT0) * k < U32) :
    ∃ v1 v2 tr1 tr2,
      microsRun fcpu (fun _ => false) ⟨s1, false⟩ = some (v1, ⟨s1, false⟩, tr1) ∧
      microsRun fcpu (fun _ => false) ⟨s2, false⟩ = some (v2, ⟨s2, false⟩, tr2) ∧
      v1 ≤ v2 := by
  have hk1 : 1 ≤ k := microsMultiplier_pos fcpu k hk
  have hA : (s1.timer0_overflow * 256 + s1.TCNT0) * k < U32 :=
    lt_of_le_of_lt (Nat.mul_le_mul_right k hle) hnw
  have h1 := microsRun_noirq fcpu k s1 hk
  rw [microsVal_eq s1.timer0_overflow s1.TCNT0 k hk1 hA] at h1
  have h2 := microsRun_noirq fcpu k s2 hk
  rw [microsVal_eq s2.timer0_overflow s2.TCNT0 k hk1 hnw] at h2
  exact ⟨_, _, _, _, h1, h2, Nat.mul_le_mul_right k hle⟩

/-- Witness for C4 at 16 MHz: snapshot (tally 1, count 10) against
snapshot (tally 2, count 3). -/
theorem micros_monotone_witness :
    microsMultiplier 16000000 = some 4 ∧
    (∃ v1 v2 tr1 tr2,
      microsRun 16000000 (fun _ => false) ⟨⟨128, 10, 3, 2, 1, 0⟩, false⟩ =
        some (v1, ⟨⟨128, 10, 3, 2, 1, 0⟩, false⟩, tr1) ∧
      microsRun 16000000 (fun _ => false) ⟨⟨128, 3, 3, 2, 2, 0⟩, false⟩ =
        some (v2, ⟨⟨128, 3, 3, 2, 2, 0⟩, false⟩, tr2) ∧
      v1 ≤ v2) :=
  ⟨by decide, micros_monotone 16000000 4 ⟨128, 10, 3, 2, 1, 0⟩
    ⟨128, 3, 3, 2, 2, 0⟩ (by decide) (by decide) (by decide)⟩

/-- C5: `init()` (with `ENABLE_MICROS`) performs exactly these side
effects in this order: it writes the prescaler bits into `TCCR0B` —
clk/64 when the frequency is at least 4.8 MHz, clk/8 below (checked
against the datasheet clock-select table) — enables the timer0 overflow
interrupt in `TIMSK0`, zeros `TCNT0`, and as its final statement runs
`sei()`, setting the I bit; the state equation shows no other field is
touched. -/
theorem init_side_effects (fcpu : Nat) (s : HwState) :
    initProg true = [.setTCCR0B, .setTIMSK0, .zeroTCNT0, .sei] ∧
    init fcpu true s =
      { s with TCCR0B := if 4800000 ≤ fcpu then _BV CS00 ||| _BV CS01 else _BV CS01,
               TIMSK0 := _BV TOIE0, TCNT0 := 0, SREG := s.SREG ||| 128 } ∧
    clockSelectDivisor (init fcpu true s).TCCR0B =
      some (if 4800000 ≤ fcpu then 64 else 8) ∧
    (initProg true).getLast? = some .sei ∧
    iBit (init fcpu true s).SREG = true := by
  refine ⟨rfl, ?_, ?_, rfl, ?_⟩
  · by_cases h : 4800000 ≤ fcpu <;>
      simp [init, initProg, execIStmt, h]
  · by_cases h : 4800000 ≤ fcpu <;>
      simp [init, initProg, execIStmt, clockSelectDivisor, _BV, CS00, CS01, h]
  · simp [init, initProg, execIStmt, iBit_or_128]

/-- C6: `delay(ms)` runs the `_delay_ms(1)` busy-wait exactly `ms` times
(counting its `uint16_t` argument down to zero), and `delay(0)` performs
zero wait iterations; termination for every input is given by the
totality of `delayLoop`. -/
theorem delay_wait_count (ms : Nat) (h : ms < 65536) :
    delay ms = ms ∧ delay 0 = 0 := by
  constructor
  · unfold delay
    rw [Nat.mod_eq_of_lt h, delayLoop_eq, Nat.add_zero]
  · rfl

/-- Witness for C6 at `ms = 3`. -/
theorem delay_wait_count_witness :
    3 < 65536 ∧ (delay 3 = 3 ∧ delay 0 = 0) :=
  ⟨by decide, delay_wait_count 3 (by decide)⟩

/-- C7: one execution of `ISR(TIM0_OVF_vect)` increments the overflow
tally by exactly one as a 32-bit unsigned value and leaves every other
field of the program state — `SREG`, `TCNT0`, `TCCR0B`, `TIMSK0` and all
other variables — unchanged. -/
theorem isr_increments_tally_only (s : HwState) :
    (ISR_TIM0_OVF s).timer0_overflow = (s.timer0_overflow + 1) % U32 ∧
    (ISR_TIM0_OVF s).SREG = s.SREG ∧
    (ISR_TIM0_OVF s).TCNT0 = s.TCNT0 ∧
    (ISR_TIM0_OVF s).TCCR0B = s.TCCR0B ∧
    (ISR_TIM0_OVF s).TIMSK0 = s.TIMSK0 ∧
    (ISR_TIM0_OVF s).extra = s.extra :=
  ⟨rfl, rfl, rfl, rfl, rfl, rfl⟩

/-- Counterexample to C8 as stated: from the concrete state reached by
one `init()`, five overflows and seventeen ticks, a second `init()`
leaves the overflow tally at 5 — the tally does not return to zero, only
the count register does. -/
theorem init_twice_counterexample :
    preSecondInit.timer0_overflow = 5 ∧
    (init 16000000 true preSecondInit).TCNT0 = 0 ∧
    (init 16000000 true preSecondInit).timer0_overflow = 5 ∧
    ¬(init 16000000 true preSecondInit).timer0_overflow = 0 := by
  refine ⟨by decide, by decide, by decide, by decide⟩

/-- C8 (amended): a second `init()` call re-zeros the fast timer's count
register but leaves the overflow tally at its accumulated value; this
may cause `read_micros` discontinuities (on the concrete mid-run state
the reading steps back from 5188 to 5120); the second call is not
rejected. -/
theorem init_twice_effects (fcpu : Nat) (s : HwState) :
    (init fcpu true s).TCNT0 = 0 ∧
    (init fcpu true s).timer0_overflow = s.timer0_overflow ∧
    ((microsRun 16000000 (fun _ => false)
        ⟨preSecondInit, false⟩).map Prod.fst = some 5188 ∧
     (microsRun 16000000 (fun _ => false)
        ⟨init 16000000 true preSecondInit, false⟩).map Prod.fst = some 5120 ∧
     (5120 : Nat) < 5188) := by
  refine ⟨?_, ?_, by decide, by decide, by decide⟩
  · by_cases h : 4800000 ≤ fcpu <;> simp [init, initProg, execIStmt, h]
  · by_cases h : 4800000 ≤ fcpu <;> simp [init, initProg, execIStmt, h]

/-- C9: from a state whose overflow tally holds its static initial value
0, `init()` followed immediately by `micros()` — no ticks, no overflow
interrupts in between — returns 0. -/
theorem init_then_micros_zero (fcpu k : Nat) (s : HwState)
    (hk : microsMultiplier fcpu = some k) (h0 : s.timer0_overflow = 0) :
    ∃ m tr, microsRun fcpu (fun _ => false) ⟨init fcpu true s, false⟩ =
      some (0, m, tr) := by
  have h := microsRun_noirq fcpu k (init fcpu true s) hk
  have hT : (init fcpu true s).timer0_overflow = 0 := by
    by_cases hb : 4800000 ≤ fcpu <;> simp [init, initProg, execIStmt, hb, h0]
  have hC : (init fcpu true s).TCNT0 = 0 := by
    by_cases hb : 4800000 ≤ fcpu <;> simp [init, initProg, execIStmt, hb]
  rw [hT, hC] at h
  exact ⟨_, _, by simpa using h⟩

/-- Witness for C9 at 16 MHz from the power-on state. -/
theorem init_then_micros_zero_witness :
    microsMultiplier 16000000 = some 4 ∧ hw0.timer0_overflow = 0 ∧
    (∃ m tr, microsRun 16000000 (fun _ => false) ⟨init 16000000 true hw0, false⟩ =
      some (0, m, tr)) :=
  ⟨by decide, by decide,
   init_then_micros_zero 16000000 4 hw0 (by decide) (by decide)⟩

/-- C10: `micros()` is a pure read — run with no interrupt activity from
any starting state, the final machine equals the entry machine exactly:
the overflow tally, every register (the full `SREG` included, although
interrupts are disabled internally) and all other variables are
unchanged on exit. -/
theorem micros_preserves_state (fcpu k : Nat) (s : HwState)
    (hk : microsMultiplier fcpu = some k) :
    ∃ v tr, microsRun fcpu (fun _ => false) ⟨s, false⟩ =
      some (v, ⟨s, false⟩, tr) :=
  ⟨_, _, microsRun_noirq fcpu k s hk⟩

/-- Witness for C10 at 16 MHz on a concrete state with interrupts
enabled at entry. -/
theorem micros_preserves_state_witness :
    microsMultiplier 16000000 = some 4 ∧
    (∃ v tr, microsRun 16000000 (fun _ => false) ⟨⟨128, 99, 3, 2, 41, 6⟩, false⟩ =
      some (v, ⟨⟨128, 99, 3, 2, 41, 6⟩, false⟩, tr)) :=
  ⟨by decide, micros_preserves_state 16000000 4 ⟨128, 99, 3, 2, 41, 6⟩ (by decide)⟩

end MicroCore
